import Mathlib

/-!
# MenuMaker: a verification development of `Menu` (src/menu.h)

The class `Menu` is embedded shallowly.

* Objects live in a heap `Heap := Addr → Option Menu`; a `Menu*` is an address.
  Following a pointer that names no object is undefined behaviour in C++ and is
  reported as `Status.badPointer`.
* `std::cin` is the list of characters not yet consumed.  `std::cin >> choice`
  for an `int` is `readInt` (skip white space, optional sign, decimal digits,
  failure when there is no digit or the value does not fit an `int`), and
  `std::cin.ignore(max, '\n')` is `ignoreLine`.
* `std::cout` and the calls made by `display` are recorded as a list of events.
* Callbacks (`void (*)()`) are identified by a number; invoking one is recorded
  as `Event.call`.  Callbacks are assumed to return and to touch neither
  `std::cin` nor the menu objects.
* Platform: `int` is 32 bits wide, `size_t` is 64 bits wide (LP64).
-/

namespace MenuMaker

/-! ## Data model -/

/-- Address of a `Menu` object (`Menu*`). -/
abbrev Addr := Nat

/-- Identity of a callback (`void (*)()`). -/
abbrev FuncPtr := Nat

/-- The union `MenuItem::Action`: it stores either a function pointer or a submenu pointer. -/
inductive Action where
  | func (f : FuncPtr)
  | submenu (m : Addr)
  deriving DecidableEq, Repr

/-- The struct `Menu::MenuItem`. -/
structure MenuItem where
  name : String
  description : String
  action : Action
  isSubmenu : Bool
  deriving DecidableEq, Repr

/-- The class `Menu`. -/
structure Menu where
  title : String
  description : String
  items : List MenuItem
  deriving DecidableEq, Repr

/-- The heap of `Menu` objects. -/
abbrev Heap := Addr → Option Menu

/-- Constructor `MenuItem(n, f, desc)` of a function item (menu.h 39-42). -/
def MenuItem.mkFunc (n : String) (f : FuncPtr) (desc : String) : MenuItem :=
  { name := n, description := desc, action := Action.func f, isSubmenu := false }

/-- Constructor `MenuItem(n, m, desc)` of a submenu item (menu.h 50-53). -/
def MenuItem.mkSubmenu (n : String) (m : Addr) (desc : String) : MenuItem :=
  { name := n, description := desc, action := Action.submenu m, isSubmenu := true }

/-- Constructor `Menu(menuTitle, menuDescription)` (menu.h 63-64): `items` starts empty. -/
def Menu.new (menuTitle : String) (menuDescription : String) : Menu :=
  { title := menuTitle, description := menuDescription, items := [] }

/-- Method `addItem` (menu.h 72-74): `items.emplace_back(name, action, description)`. -/
def Menu.addItem (self : Menu) (name : String) (action : FuncPtr) (description : String) : Menu :=
  { self with items := self.items ++ [MenuItem.mkFunc name action description] }

/-- Method `addSubmenu` (menu.h 82-84): `items.emplace_back(name, submenu, description)`. -/
def Menu.addSubmenu (self : Menu) (name : String) (submenu : Addr) (description : String) : Menu :=
  { self with items := self.items ++ [MenuItem.mkSubmenu name submenu description] }

/-! ## The input stream -/

/-- White space of the classic locale, skipped by formatted extraction. -/
def isSpace (c : Char) : Bool :=
  c = ' ' || c = '\n' || c = '\t' || c = '\r' || c = '\x0b' || c = '\x0c'

/-- Decimal digit. -/
def isDigit (c : Char) : Bool :=
  '0'.toNat ≤ c.toNat && c.toNat ≤ '9'.toNat

/-- Value of a decimal digit character. -/
def digitVal (c : Char) : Nat := c.toNat - '0'.toNat

/-- Value of a run of decimal digits, most significant first. -/
def digitsVal (ds : List Char) : Nat :=
  ds.foldl (fun acc c => 10 * acc + digitVal c) 0

/-- Least value of `int`. -/
def INT_MIN : Int := -2147483648

/-- Greatest value of `int`. -/
def INT_MAX : Int := 2147483647

/-- Whether the field begins with a minus sign. -/
def isNeg (s : List Char) : Bool :=
  match s with
  | '-' :: _ => true
  | _ => false

/-- What is left of the field after its optional sign. -/
def afterSign (s : List Char) : List Char :=
  match s with
  | '-' :: t => t
  | '+' :: t => t
  | _ => s

/-- The extraction `std::cin >> choice` for `int choice`: leading white space is skipped,
an optional sign and the following decimal digits are consumed.  The extraction fails when
there is no digit (this includes the end of the input) or when the value does not fit an
`int`.  The second component is the input left in the stream. -/
def readInt (inp : List Char) : Option Int × List Char :=
  let s := inp.dropWhile isSpace
  let s1 := afterSign s
  let ds := s1.takeWhile isDigit
  let rest := s1.dropWhile isDigit
  if ds = [] then (none, rest)
  else
    let v : Int := if isNeg s then -(digitsVal ds : Int) else (digitsVal ds : Int)
    if INT_MIN ≤ v ∧ v ≤ INT_MAX then (some v, rest) else (none, rest)

/-- The call `std::cin.ignore(numeric_limits<streamsize>::max(), '\n')`: characters are
discarded up to and including the first newline, or up to the end of the input. -/
def ignoreLine : List Char → List Char
  | [] => []
  | c :: t => if c = '\n' then t else ignoreLine t

/-! ## The output stream and the observable behaviour -/

/-- What `display` does that can be observed. -/
inductive Event where
  /-- Text written to `std::cout`. -/
  | out (text : String)
  /-- The call `item.action.func()`. -/
  | call (f : FuncPtr)
  /-- The call `item.action.submenu->display()` begins. -/
  | enter (m : Addr)
  /-- The call `item.action.submenu->display()` has returned. -/
  | leave (m : Addr)
  deriving DecidableEq, Repr

/-- How a run of `display` ends. -/
inductive Status where
  /-- The call returned (the `break` of line 122). -/
  | returned
  /-- The input is exhausted: the loop of lines 115-120 repeats for ever, printing the
  invalid-input message and the prompt each time round. -/
  | spinning
  /-- Undefined behaviour: a pointer that names no `Menu` was followed. -/
  | badPointer
  /-- Undefined behaviour: the union member read is not the one stored. -/
  | badUnion
  /-- Undefined behaviour: `items[choice-1]` indexed outside the vector. -/
  | outOfBounds
  /-- The model ran out of fuel. -/
  | outOfFuel
  deriving DecidableEq, Repr

/-- Result of a run of `display`: the events in order, the input left in the stream, how
the run ended, and the selections read by this call itself (not by nested calls). -/
structure Outcome where
  trace : List Event
  rest : List Char
  status : Status
  sels : List Int
  deriving DecidableEq, Repr

/-- Operator `<<` for `size_t`: decimal digits. -/
def decimal (n : Nat) : String := Nat.repr n

/-- The conversion `static_cast<int>(items.size())`: reduction modulo `2^32` into the
range of `int`. -/
def toInt32 (n : Nat) : Int := ((n + 2147483648) % 4294967296 : Nat) - 2147483648

/-- One item line (menu.h 105-109), for loop index `i`.  The sum `i + 1` is computed in
`size_t` and does not wrap: a vector holds fewer than `2^64` items. -/
def itemLine (i : Nat) (it : MenuItem) : String :=
  decimal (i + 1) ++ ". " ++ it.name ++
    (if it.description = "" then "" else " - " ++ it.description) ++ "\n"

/-- The loop `for (size_t i = 0; i < items.size(); i++)` (menu.h 104-110), started at index
`i` with `n` iterations left. -/
def renderItems (items : List MenuItem) : Nat → Nat → String
  | _, 0 => ""
  | i, n + 1 =>
    match items[i]? with
    | some it => itemLine i it ++ renderItems items (i + 1) n
    | none => ""

/-- Text written by lines 100-112: one render of the menu, the prompt included. -/
def render (m : Menu) : String :=
  "\n=== " ++ m.title ++ " ===\n" ++
    (if m.description = "" then "" else "\n" ++ m.description ++ "\n\n") ++
    renderItems m.items 0 m.items.length ++
    "0. Exit\n" ++
    "Choice: "

/-- Message of line 118. -/
def invalidInputMsg : String := "Invalid input! Please enter a number.\n"

/-- Prompt of lines 112 and 119. -/
def promptMsg : String := "Choice: "

/-- Message of lines 131-132. -/
def invalidChoiceMsg (n : Nat) : String :=
  "Invalid choice! Please select a number between 0 and " ++ decimal n ++ ".\n"

/-- Result of the loop of lines 115-120. -/
inductive ReadEnd where
  /-- The extraction succeeded with this value; the input left follows. -/
  | got (choice : Int) (rest : List Char)
  /-- The input is exhausted: the loop never ends. -/
  | eof
  /-- The model ran out of fuel. -/
  | outOfFuel
  deriving DecidableEq, Repr

/-- The loop `while (!(std::cin >> choice)) { clear; ignore; print; print; }` (menu.h
115-120).  The first component lists what the loop printed.  A failed extraction on the
empty input leaves the stream as it was, so that the same iteration repeats for ever: this
is reported as `ReadEnd.eof`, after one round of messages. -/
def readChoice : Nat → List Char → List Event × ReadEnd
  | 0, _ => ([], ReadEnd.outOfFuel)
  | fuel + 1, inp =>
    match readInt inp with
    | (some v, rest) => ([], ReadEnd.got v rest)
    | (none, rest) =>
      if inp = [] then
        ([Event.out invalidInputMsg, Event.out promptMsg], ReadEnd.eof)
      else
        let r := readChoice fuel (ignoreLine rest)
        (Event.out invalidInputMsg :: Event.out promptMsg :: r.1, r.2)

/-- Prepends events and one own selection to an outcome. -/
def Outcome.after (es : List Event) (sel : List Int) (o : Outcome) : Outcome :=
  { o with trace := es ++ o.trace, sels := sel ++ o.sels }

/-- One iteration of the loop `while (true)` of `display` (menu.h 99-134) on the object at
address `a`, followed by what comes after it.  The argument `self` stands for `display`
itself: `self a rest` is the rest of this loop (line 134 back to line 99) and `self c rest`
the nested call `item.action.submenu->display()` of line 128. -/
def displayBody (self : Addr → List Char → Outcome) (h : Heap) (a : Addr) (inp : List Char) :
    Outcome :=
  match h a with
  | none => { trace := [], rest := inp, status := Status.badPointer, sels := [] }
  | some m =>
    let rd := readChoice (inp.length + 1) inp
    let pre := Event.out (render m) :: rd.1
    match rd.2 with
    | ReadEnd.outOfFuel => { trace := pre, rest := inp, status := Status.outOfFuel, sels := [] }
    | ReadEnd.eof => { trace := pre, rest := [], status := Status.spinning, sels := [] }
    | ReadEnd.got choice rest =>
      if choice = 0 then
        { trace := pre, rest := rest, status := Status.returned, sels := [choice] }
      else if choice > 0 ∧ choice ≤ toInt32 m.items.length then
        match m.items[(choice - 1).toNat]? with
        | none => { trace := pre, rest := rest, status := Status.outOfBounds, sels := [choice] }
        | some item =>
          if !item.isSubmenu then
            match item.action with
            | Action.func f => (self a rest).after (pre ++ [Event.call f]) [choice]
            | Action.submenu _ =>
              { trace := pre, rest := rest, status := Status.badUnion, sels := [choice] }
          else
            match item.action with
            | Action.submenu c =>
              let sub := self c rest
              if sub.status = Status.returned then
                (self a sub.rest).after
                  (pre ++ Event.enter c :: sub.trace ++ [Event.leave c]) [choice]
              else
                { trace := pre ++ Event.enter c :: sub.trace, rest := sub.rest,
                  status := sub.status, sels := [choice] }
            | Action.func _ =>
              { trace := pre, rest := rest, status := Status.badUnion, sels := [choice] }
      else
        (self a rest).after (pre ++ [Event.out (invalidChoiceMsg m.items.length)]) [choice]

/-- The method `display` (menu.h 98-135) with fuel: one unit is spent per iteration of the
outer loop and per nested call. -/
def displayFuel : Nat → Heap → Addr → List Char → Outcome
  | 0, _, _, inp => { trace := [], rest := inp, status := Status.outOfFuel, sels := [] }
  | fuel + 1, h, a, inp => displayBody (displayFuel fuel h) h a inp

/-- The method `display` (menu.h 98-135).  Every iteration and every nested call begins by
consuming at least one character, so one unit of fuel per input character, plus one,
always suffices: more fuel changes nothing (`displayFuel_fuel`), `display` unfolds to one
iteration of the loop with itself as continuation (`display_eq`), and it never reports
`Status.outOfFuel` (`display_ne_outOfFuel`). -/
def display (h : Heap) (a : Addr) (inp : List Char) : Outcome :=
  displayFuel (inp.length + 1) h a inp

/-! ## Building a menu, and the render the specification describes -/

/-- One call of the construction interface on a menu. -/
inductive Call where
  | addItem (name : String) (action : FuncPtr) (description : String)
  | addSubmenu (name : String) (submenu : Addr) (description : String)
  deriving DecidableEq, Repr

/-- The name given in a call. -/
def Call.name : Call → String
  | Call.addItem n _ _ => n
  | Call.addSubmenu n _ _ => n

/-- The description given in a call. -/
def Call.description : Call → String
  | Call.addItem _ _ d => d
  | Call.addSubmenu _ _ d => d

/-- Performs one call on a menu. -/
def Call.apply (m : Menu) : Call → Menu
  | Call.addItem n f d => m.addItem n f d
  | Call.addSubmenu n c d => m.addSubmenu n c d

/-- The item a call appends. -/
def Call.item : Call → MenuItem
  | Call.addItem n f d => MenuItem.mkFunc n f d
  | Call.addSubmenu n c d => MenuItem.mkSubmenu n c d

/-- The menu obtained from a fresh `Menu(title, description)` by a sequence of calls. -/
def build (title description : String) (calls : List Call) : Menu :=
  calls.foldl Call.apply (Menu.new title description)

/-- The line the specification gives for the `j`-th call. -/
def specLine (j : Nat) (c : Call) : String :=
  decimal j ++ ". " ++ c.name ++
    (if c.description ≠ "" then " - " ++ c.description else "") ++ "
"

/-- The lines the specification gives for a sequence of calls, numbered from `j`. -/
def specLines : Nat → List Call → String
  | _, [] => ""
  | j, c :: cs => specLine j c ++ specLines (j + 1) cs

/-- The render the specification describes for a menu built by a sequence of calls. -/
def specRender (title description : String) (calls : List Call) : String :=
  "\n=== " ++ title ++ " ===\n" ++
    (if description ≠ "" then "\n" ++ description ++ "\n\n" else "") ++
    specLines 1 calls ++ "0. Exit\n" ++ "Choice: "

/-! ## Integers as they are typed -/

/-- The decimal writing of an integer: a minus sign when negative, then the digits. -/
def numeral (k : Int) : List Char :=
  if k < 0 then '-' :: (Nat.toDigits 10 k.natAbs) else Nat.toDigits 10 k.natAbs

/-- The text does not begin with a decimal digit. -/
def NoDigitAhead (rest : List Char) : Prop :=
  ∀ c ∈ rest.head?, isDigit c = false

instance (rest : List Char) : Decidable (NoDigitAhead rest) := by
  unfold NoDigitAhead
  infer_instance

/-- The text consists of white space only. -/
def AllSpace (ws : List Char) : Prop :=
  ∀ c ∈ ws, isSpace c = true

instance (ws : List Char) : Decidable (AllSpace ws) := by
  unfold AllSpace
  infer_instance

/-! ## A small tree of menus

The scenario of the specification: a root menu with the action "Start" and the submenu
"Config", which has the single action "Toggle". -/

/-- Callback of "Start". -/
def startFn : FuncPtr := 1

/-- Callback of "Toggle". -/
def toggleFn : FuncPtr := 2

/-- The root menu, at address `0`; the child is at address `1`. -/
def demoRoot : Menu :=
  ((Menu.new "Root" "").addItem "Start" startFn "").addSubmenu "Config" 1 ""

/-- The child menu, at address `1`. -/
def demoChild : Menu :=
  (Menu.new "Config" "Settings").addItem "Toggle" toggleFn "flip it"

/-- The heap holding the two menus. -/
def demoHeap : Heap := fun a =>
  if a = 0 then some demoRoot else if a = 1 then some demoChild else none

/-! ## A menu with more items than an `int` can count -/

/-- A menu of `2^31` function items. -/
def bigMenu : Menu :=
  { title := "Big", description := "",
    items := List.replicate 2147483648 (MenuItem.mkFunc "Go" startFn "") }

/-- A menu of `2^31` submenu items, each pointing to the menu at address `1`. -/
def bigParent : Menu :=
  { title := "Parent", description := "",
    items := List.replicate 2147483648 (MenuItem.mkSubmenu "Config" 1 "") }

/-- A heap with `bigMenu` at address `0`, the child of the scenario at address `1` and
`bigParent` at address `2`. -/
def bigHeap : Heap := fun a =>
  if a = 0 then some bigMenu else if a = 1 then some demoChild
  else if a = 2 then some bigParent else none

/-! ## Tokens that are not integers -/

/-- A token: not empty and without white space. -/
def IsToken (t : List Char) : Prop :=
  t ≠ [] ∧ ∀ c ∈ t, isSpace c = false

instance (t : List Char) : Decidable (IsToken t) := by
  unfold IsToken
  infer_instance

/-- The token is the writing of an integer: an optional sign, then one or more decimal
digits, and nothing else. -/
def IsIntegerToken (t : List Char) : Prop :=
  afterSign t ≠ [] ∧ ∀ c ∈ afterSign t, isDigit c = true

instance (t : List Char) : Decidable (IsIntegerToken t) := by
  unfold IsIntegerToken
  infer_instance

/-- The outcome with one invalid-input message and one prompt added right after its first
event (the first render), everything else unchanged. -/
def afterInvalidInput (o : Outcome) : Outcome :=
  { o with trace :=
      match o.trace with
      | [] => []
      | e :: tl => e :: Event.out invalidInputMsg :: Event.out promptMsg :: tl }

/-! ## The outcome of selecting a submenu, as the specification describes it -/

/-- The run of parent `p` (menu `P`) after it read the selection `i` of a submenu item that
points to `c`, the input that follows being `s`: the render of `P`, then the whole run of
`display` on `c` over `s`; when that run returns, the run of `display` on `p` over the
input the child left; when it does not, the run ends as the child ended. -/
def nestedOutcome (h : Heap) (p c : Addr) (P : Menu) (i : Int) (s : List Char) : Outcome :=
  if (display h c s).status = Status.returned then
    (display h p (display h c s).rest).after
      (Event.out (render P) :: Event.enter c :: (display h c s).trace ++ [Event.leave c]) [i]
  else
    { trace := Event.out (render P) :: Event.enter c :: (display h c s).trace,
      rest := (display h c s).rest, status := (display h c s).status, sels := [i] }

/-! ## Lemmas on the input stream -/

theorem ignoreLine_length_le (l : List Char) : (ignoreLine l).length ≤ l.length := by
  induction l with
  | nil => simp [ignoreLine]
  | cons c t ih =>
    simp only [ignoreLine]
    split
    · simp
    · simp only [List.length_cons]; omega

theorem dropWhile_length_le (p : Char → Bool) (l : List Char) :
    (l.dropWhile p).length ≤ l.length := by
  induction l with
  | nil => simp
  | cons c t ih =>
    simp only [List.dropWhile_cons]
    split
    · simp only [List.length_cons]; omega
    · exact Nat.le_refl _

theorem takeWhile_dropWhile_length (p : Char → Bool) (l : List Char) :
    (l.takeWhile p).length + (l.dropWhile p).length = l.length := by
  have h := congrArg List.length (List.takeWhile_append_dropWhile p l)
  rw [List.length_append] at h
  exact h

theorem afterSign_length_le (s : List Char) : (afterSign s).length ≤ s.length := by
  unfold afterSign
  split <;> simp

theorem readInt_rest (inp : List Char) :
    (readInt inp).2 = (afterSign (inp.dropWhile isSpace)).dropWhile isDigit := by
  unfold readInt
  simp only []
  split_ifs <;> rfl

theorem readInt_some_digits (inp : List Char) (v : Int) (rest : List Char)
    (h : readInt inp = (some v, rest)) :
    (afterSign (inp.dropWhile isSpace)).takeWhile isDigit ≠ [] := by
  unfold readInt at h
  simp only [] at h
  intro hd
  rw [if_pos hd] at h
  simp at h

/-- A successful extraction consumes at least one character. -/
theorem readInt_some_length (inp : List Char) (v : Int) (rest : List Char)
    (h : readInt inp = (some v, rest)) : rest.length < inp.length := by
  have hd := readInt_some_digits inp v rest h
  have hr := readInt_rest inp
  rw [h] at hr
  simp only [] at hr
  have h1 := takeWhile_dropWhile_length isDigit (afterSign (inp.dropWhile isSpace))
  have h2 := afterSign_length_le (inp.dropWhile isSpace)
  have h3 := dropWhile_length_le isSpace inp
  have h4 : 0 < ((afterSign (inp.dropWhile isSpace)).takeWhile isDigit).length :=
    List.length_pos.mpr hd
  rw [hr]
  omega

/-- A failed extraction followed by `ignore` consumes at least one character, unless the
input is exhausted. -/
theorem readInt_fail_length (inp : List Char) (hne : inp ≠ []) :
    (ignoreLine (readInt inp).2).length < inp.length := by
  rw [readInt_rest]
  have h3 := dropWhile_length_le isSpace inp
  have hpos : 0 < inp.length := List.length_pos.mpr hne
  generalize hs : inp.dropWhile isSpace = s at h3
  have hi := ignoreLine_length_le ((afterSign s).dropWhile isDigit)
  have hdw := dropWhile_length_le isDigit (afterSign s)
  have has := afterSign_length_le s
  cases s with
  | nil =>
    simp [afterSign, ignoreLine]
    exact hpos
  | cons c t =>
    by_cases hsign : afterSign (c :: t) = t
    · rw [hsign] at hi hdw ⊢
      simp only [List.length_cons] at h3
      omega
    · have hself : afterSign (c :: t) = c :: t := by
        unfold afterSign at hsign ⊢
        split at hsign <;> simp_all
      rw [hself]
      by_cases hdg : isDigit c = true
      · have h1 := takeWhile_dropWhile_length isDigit (c :: t)
        have h4 : 0 < ((c :: t).takeWhile isDigit).length := by
          simp [List.takeWhile_cons, hdg]
        rw [hself] at hi
        omega
      · have hdrop : (c :: t).dropWhile isDigit = c :: t := by
          simp [List.dropWhile_cons, hdg]
        rw [hdrop]
        have : (ignoreLine (c :: t)).length ≤ t.length := by
          simp only [ignoreLine]
          split
          · exact Nat.le_refl _
          · exact ignoreLine_length_le t
        simp only [List.length_cons] at h3
        omega

/-! ## Lemmas on numerals -/

theorem digitChar_digit (d : Nat) (hd : d < 10) :
    isDigit (Nat.digitChar d) = true ∧ digitVal (Nat.digitChar d) = d := by
  interval_cases d <;> exact ⟨rfl, rfl⟩

theorem digitsVal_append_one (pre : List Char) (d : Char) :
    digitsVal (pre ++ [d]) = 10 * digitsVal pre + digitVal d := by
  unfold digitsVal
  rw [List.foldl_append]
  rfl

theorem toDigitsCore_spec (fuel : Nat) : ∀ (n : Nat) (ds : List Char), n < fuel →
    ∃ pre : List Char, Nat.toDigitsCore 10 fuel n ds = pre ++ ds ∧ pre ≠ [] ∧
      (∀ c ∈ pre, isDigit c = true) ∧ digitsVal pre = n := by
  induction fuel with
  | zero => intro n ds h; omega
  | succ fuel ih =>
    intro n ds h
    have hd := digitChar_digit (n % 10) (Nat.mod_lt _ (by decide))
    rw [Nat.toDigitsCore]
    by_cases h0 : n / 10 = 0
    · rw [if_pos h0]
      refine ⟨[Nat.digitChar (n % 10)], rfl, by simp, ?_, ?_⟩
      · intro c hc
        simp only [List.mem_singleton] at hc
        rw [hc]; exact hd.1
      · have := digitsVal_append_one [] (Nat.digitChar (n % 10))
        simp only [List.nil_append] at this
        rw [this, hd.2]
        simp only [digitsVal, List.foldl_nil]
        omega
    · rw [if_neg h0]
      obtain ⟨pre, hpre, _, hdig, hval⟩ :=
        ih (n / 10) (Nat.digitChar (n % 10) :: ds) (by omega)
      refine ⟨pre ++ [Nat.digitChar (n % 10)], ?_, by simp, ?_, ?_⟩
      · rw [hpre]; simp
      · intro c hc
        rcases List.mem_append.mp hc with hc | hc
        · exact hdig c hc
        · simp only [List.mem_singleton] at hc
          rw [hc]; exact hd.1
      · rw [digitsVal_append_one, hval, hd.2]
        omega

/-- The decimal digits of a number: not empty, all digits, and their value is the number. -/
theorem toDigits_spec (n : Nat) :
    Nat.toDigits 10 n ≠ [] ∧ (∀ c ∈ Nat.toDigits 10 n, isDigit c = true) ∧
      digitsVal (Nat.toDigits 10 n) = n := by
  obtain ⟨pre, hpre, hne, hdig, hval⟩ := toDigitsCore_spec (n + 1) n [] (Nat.lt_succ_self n)
  unfold Nat.toDigits
  rw [hpre, List.append_nil]
  exact ⟨hne, hdig, hval⟩

theorem takeWhile_digits (pre rest : List Char) (hpre : ∀ c ∈ pre, isDigit c = true)
    (hrest : NoDigitAhead rest) :
    (pre ++ rest).takeWhile isDigit = pre ∧ (pre ++ rest).dropWhile isDigit = rest := by
  induction pre with
  | nil =>
    cases rest with
    | nil => simp
    | cons c t =>
      have : isDigit c = false := hrest c (by simp)
      simp [List.takeWhile_cons, List.dropWhile_cons, this]
  | cons d pre ih =>
    have hd : isDigit d = true := hpre d (by simp)
    have := ih (fun c hc => hpre c (by simp [hc]))
    simp [List.takeWhile_cons, List.dropWhile_cons, hd, this]

theorem dropWhile_space (ws s : List Char) (hws : AllSpace ws)
    (hs : ∀ c ∈ s.head?, isSpace c = false) : (ws ++ s).dropWhile isSpace = s := by
  induction ws with
  | nil =>
    cases s with
    | nil => simp
    | cons c t =>
      have : isSpace c = false := hs c (by simp)
      simp [List.dropWhile_cons, this]
  | cons w ws ih =>
    have hw : isSpace w = true := hws w (by simp)
    have := ih (fun c hc => hws c (by simp [hc]))
    simp [List.dropWhile_cons, hw, this]

theorem digit_not_space (c : Char) (hc : isDigit c = true) : isSpace c = false := by
  unfold isDigit at hc
  unfold isSpace
  simp only [Bool.and_eq_true, decide_eq_true_eq] at hc
  have h1 : c ≠ ' ' := by rintro rfl; revert hc; decide
  have h2 : c ≠ '\n' := by rintro rfl; revert hc; decide
  have h3 : c ≠ '\t' := by rintro rfl; revert hc; decide
  have h4 : c ≠ '\r' := by rintro rfl; revert hc; decide
  have h5 : c ≠ '\x0b' := by rintro rfl; revert hc; decide
  have h6 : c ≠ '\x0c' := by rintro rfl; revert hc; decide
  simp [h1, h2, h3, h4, h5, h6]

theorem digit_not_sign (c : Char) (t : List Char) (hc : isDigit c = true) :
    afterSign (c :: t) = c :: t ∧ isNeg (c :: t) = false := by
  unfold isDigit at hc
  simp only [Bool.and_eq_true, decide_eq_true_eq] at hc
  have h1 : c ≠ '-' := by rintro rfl; revert hc; decide
  have h2 : c ≠ '+' := by rintro rfl; revert hc; decide
  constructor
  · unfold afterSign
    split <;> simp_all
  · unfold isNeg
    split <;> simp_all

/-- Extraction of a written integer: the value is delivered when it fits an `int`, and the
stream is left right after the last digit. -/
theorem readInt_numeral (ws rest : List Char) (k : Int) (hws : AllSpace ws)
    (hrest : NoDigitAhead rest) (hk : INT_MIN ≤ k ∧ k ≤ INT_MAX) :
    readInt (ws ++ numeral k ++ rest) = (some k, rest) := by
  obtain ⟨hne, hdig, hval⟩ := toDigits_spec k.natAbs
  obtain ⟨d, ds, hds⟩ : ∃ d ds, Nat.toDigits 10 k.natAbs = d :: ds := by
    cases hx : Nat.toDigits 10 k.natAbs with
    | nil => exact absurd hx hne
    | cons d ds => exact ⟨d, ds, rfl⟩
  have hd : isDigit d = true := hdig d (by rw [hds]; simp)
  have htk := takeWhile_digits (Nat.toDigits 10 k.natAbs) rest hdig hrest
  unfold readInt
  simp only [List.append_assoc]
  by_cases hneg : k < 0
  · have hnum : numeral k = '-' :: Nat.toDigits 10 k.natAbs := by
      unfold numeral; rw [if_pos hneg]
    rw [hnum, dropWhile_space ws _ hws (by simp [isSpace])]
    simp only [List.cons_append, afterSign, isNeg, htk.1, htk.2, hne, if_false, if_true,
      hval]
    have hv : -((k.natAbs : Nat) : Int) = k := by omega
    rw [hv, if_pos hk]
  · have hnum : numeral k = Nat.toDigits 10 k.natAbs := by
      unfold numeral; rw [if_neg hneg]
    rw [hnum, dropWhile_space ws _ hws
      (by rw [hds]; simpa using digit_not_space d hd)]
    have hsg := digit_not_sign d (ds ++ rest) hd
    have hcons : Nat.toDigits 10 k.natAbs ++ rest = d :: (ds ++ rest) := by
      rw [hds]; rfl
    rw [hcons, hsg.1, hsg.2, ← hcons]
    simp only [htk.1, htk.2, hne, if_false, hval]
    have hv : ((k.natAbs : Nat) : Int) = k := by omega
    simp only [Bool.false_eq_true, if_false, hv, if_pos hk]

/-! ## Lemmas on the loop that reads a selection -/

theorem readChoice_succ (f : Nat) : ∀ inp : List Char, inp.length < f →
    readChoice (f + 1) inp = readChoice f inp := by
  induction f with
  | zero => intro inp h; omega
  | succ f ih =>
    intro inp h
    rw [readChoice.eq_2 inp (f + 1), readChoice.eq_2 inp f]
    rcases hr : readInt inp with ⟨_ | v, rest⟩
    · simp only []
      by_cases hne : inp = []
      · simp [hne]
      · simp only [if_neg hne]
        have hl := readInt_fail_length inp hne
        rw [hr] at hl
        simp only [] at hl
        rw [ih _ (by omega)]
    · rfl

theorem readChoice_fuel (k : Nat) (inp : List Char) :
    readChoice (inp.length + 1 + k) inp = readChoice (inp.length + 1) inp := by
  induction k with
  | zero => rfl
  | succ k ih =>
    rw [← ih]
    exact readChoice_succ (inp.length + 1 + k) inp (by omega)

theorem readChoice_of_lt (f : Nat) (inp : List Char) (h : inp.length < f) :
    readChoice f inp = readChoice (inp.length + 1) inp := by
  obtain ⟨k, rfl⟩ : ∃ k, f = inp.length + 1 + k := ⟨f - (inp.length + 1), by omega⟩
  exact readChoice_fuel k inp

/-- Unfolding of the reading loop when the extraction succeeds at once. -/
theorem readChoice_ok (inp : List Char) (v : Int) (rest : List Char)
    (h : readInt inp = (some v, rest)) :
    readChoice (inp.length + 1) inp = ([], ReadEnd.got v rest) := by
  rw [readChoice, h]

/-- Unfolding of the reading loop when the extraction fails on a non-empty input. -/
theorem readChoice_fail (inp : List Char) (rest : List Char)
    (h : readInt inp = (none, rest)) (hne : inp ≠ []) :
    readChoice (inp.length + 1) inp =
      (Event.out invalidInputMsg :: Event.out promptMsg ::
          (readChoice ((ignoreLine rest).length + 1) (ignoreLine rest)).1,
        (readChoice ((ignoreLine rest).length + 1) (ignoreLine rest)).2) := by
  have hl := readInt_fail_length inp hne
  rw [h] at hl
  simp only [] at hl
  rw [readChoice, h]
  simp only [if_neg hne]
  rw [readChoice_of_lt _ _ hl]

/-- On the exhausted input the loop never ends. -/
theorem readChoice_nil (f : Nat) :
    readChoice (f + 1) [] =
      ([Event.out invalidInputMsg, Event.out promptMsg], ReadEnd.eof) := by
  rw [readChoice]
  rfl

/-- The reading loop never runs out of fuel, and a selection it delivers has consumed at
least one character. -/
theorem readChoice_end (n : Nat) : ∀ inp : List Char, inp.length ≤ n →
    (readChoice (inp.length + 1) inp).2 ≠ ReadEnd.outOfFuel ∧
    ∀ v rest, (readChoice (inp.length + 1) inp).2 = ReadEnd.got v rest →
      rest.length < inp.length := by
  induction n with
  | zero =>
    intro inp h
    have : inp = [] := List.length_eq_zero.mp (by omega)
    subst this
    rw [show ([] : List Char).length + 1 = 0 + 1 from rfl, readChoice_nil]
    simp
  | succ n ih =>
    intro inp h
    rcases hr : readInt inp with ⟨_ | v, rest⟩
    · by_cases hne : inp = []
      · subst hne
        rw [show ([] : List Char).length + 1 = 0 + 1 from rfl, readChoice_nil]
        simp
      · rw [readChoice_fail inp rest hr hne]
        have hl := readInt_fail_length inp hne
        rw [hr] at hl
        simp only [] at hl
        have := ih (ignoreLine rest) (by omega)
        refine ⟨this.1, ?_⟩
        intro v r hv
        have := this.2 v r hv
        omega
    · rw [readChoice_ok inp v rest hr]
      refine ⟨by simp, ?_⟩
      intro v2 r2 hv
      simp only [ReadEnd.got.injEq] at hv
      have := readInt_some_length inp v rest hr
      rw [← hv.2]
      exact this

theorem readChoice_ne_outOfFuel (inp : List Char) :
    (readChoice (inp.length + 1) inp).2 ≠ ReadEnd.outOfFuel :=
  (readChoice_end inp.length inp (Nat.le_refl _)).1

theorem readChoice_got_length (inp : List Char) (v : Int) (rest : List Char)
    (h : (readChoice (inp.length + 1) inp).2 = ReadEnd.got v rest) :
    rest.length < inp.length :=
  (readChoice_end inp.length inp (Nat.le_refl _)).2 v rest h

/-! ## Lemmas on `display`: fuel -/

@[simp] theorem Outcome.after_rest (es : List Event) (sel : List Int) (o : Outcome) :
    (o.after es sel).rest = o.rest := rfl

@[simp] theorem Outcome.after_status (es : List Event) (sel : List Int) (o : Outcome) :
    (o.after es sel).status = o.status := rfl

@[simp] theorem Outcome.after_trace (es : List Event) (sel : List Int) (o : Outcome) :
    (o.after es sel).trace = es ++ o.trace := rfl

@[simp] theorem Outcome.after_sels (es : List Event) (sel : List Int) (o : Outcome) :
    (o.after es sel).sels = sel ++ o.sels := rfl

/-- One iteration never gives input back, if the calls it makes do not. -/
theorem displayBody_rest_le (self : Addr → List Char → Outcome) (h : Heap) (a : Addr)
    (inp : List Char) (hself : ∀ x r, (self x r).rest.length ≤ r.length) :
    (displayBody self h a inp).rest.length ≤ inp.length := by
  unfold displayBody
  split
  · exact Nat.le_refl _
  · simp only []
    split
    · exact Nat.le_refl _
    · simp
    · rename_i choice rest hgot
      have hlt := readChoice_got_length inp choice rest hgot
      have h1 := hself a rest
      split_ifs
      · simp only []; omega
      · split
        · simp only []; omega
        · split_ifs
          · split
            · simp only [Outcome.after_rest]; omega
            · simp only []; omega
          · split
            · rename_i c _
              have h2 := hself c rest
              have h3 := hself a (self c rest).rest
              split_ifs
              · simp only [Outcome.after_rest]; omega
              · simp only []; omega
            · simp only []; omega
      · simp only [Outcome.after_rest]; omega

theorem displayFuel_rest_le (f : Nat) : ∀ (h : Heap) (a : Addr) (inp : List Char),
    (displayFuel f h a inp).rest.length ≤ inp.length := by
  induction f with
  | zero => intro h a inp; exact Nat.le_refl _
  | succ f ih =>
    intro h a inp
    rw [displayFuel]
    exact displayBody_rest_le _ h a inp (fun x r => ih h x r)

/-- One iteration depends on `self` only at inputs shorter than its own. -/
theorem displayBody_congr (s1 s2 : Addr → List Char → Outcome) (h : Heap) (a : Addr)
    (inp : List Char) (hrest : ∀ x r, (s1 x r).rest.length ≤ r.length)
    (hagree : ∀ x r, r.length < inp.length → s1 x r = s2 x r) :
    displayBody s1 h a inp = displayBody s2 h a inp := by
  unfold displayBody
  split
  · rfl
  · simp only []
    split
    · rfl
    · rfl
    · rename_i choice rest hgot
      have hlt := readChoice_got_length inp choice rest hgot
      have e1 : ∀ x, s1 x rest = s2 x rest := fun x => hagree x rest hlt
      have e2 : ∀ x y, s1 x (s2 y rest).rest = s2 x (s2 y rest).rest := by
        intro x y
        apply hagree
        have := hrest y rest
        rw [e1 y] at this
        omega
      simp only [e1, e2]

theorem displayFuel_succ (f : Nat) : ∀ (h : Heap) (a : Addr) (inp : List Char),
    inp.length < f → displayFuel (f + 1) h a inp = displayFuel f h a inp := by
  induction f with
  | zero => intro h a inp hl; omega
  | succ f ih =>
    intro h a inp hl
    rw [displayFuel.eq_2 h a inp f, displayFuel.eq_2 h a inp (f + 1)]
    apply displayBody_congr
    · intro x r
      exact displayFuel_rest_le (f + 1) h x r
    · intro x r hr
      exact ih h x r (by omega)

theorem displayFuel_fuel (k : Nat) (h : Heap) (a : Addr) (inp : List Char) :
    displayFuel (inp.length + 1 + k) h a inp = display h a inp := by
  induction k with
  | zero => rfl
  | succ k ih =>
    rw [← ih]
    exact displayFuel_succ (inp.length + 1 + k) h a inp (by omega)

theorem displayFuel_of_lt (f : Nat) (h : Heap) (a : Addr) (inp : List Char)
    (hl : inp.length < f) : displayFuel f h a inp = display h a inp := by
  obtain ⟨k, rfl⟩ : ∃ k, f = inp.length + 1 + k := ⟨f - (inp.length + 1), by omega⟩
  exact displayFuel_fuel k h a inp

theorem display_rest_le (h : Heap) (a : Addr) (inp : List Char) :
    (display h a inp).rest.length ≤ inp.length :=
  displayFuel_rest_le _ h a inp

/-- The unfolding of `display`: one iteration of the loop, in which `display` itself
continues the loop and serves the nested call.  No fuel appears. -/
theorem display_eq (h : Heap) (a : Addr) (inp : List Char) :
    display h a inp = displayBody (display h) h a inp := by
  unfold display
  rw [displayFuel]
  apply displayBody_congr
  · intro x r
    exact displayFuel_rest_le _ h x r
  · intro x r hr
    exact displayFuel_of_lt _ h x r hr

/-! ## Lemmas on `display`: the branches of one iteration -/

theorem display_badPointer (h : Heap) (a : Addr) (inp : List Char) (ha : h a = none) :
    display h a inp =
      { trace := [], rest := inp, status := Status.badPointer, sels := [] } := by
  rw [display_eq]
  unfold displayBody
  simp [ha]

theorem display_eof (h : Heap) (a : Addr) (m : Menu) (inp : List Char) (evs : List Event)
    (ha : h a = some m) (hrd : readChoice (inp.length + 1) inp = (evs, ReadEnd.eof)) :
    display h a inp =
      { trace := Event.out (render m) :: evs, rest := [], status := Status.spinning,
        sels := [] } := by
  rw [display_eq]
  unfold displayBody
  simp [ha, hrd]

theorem display_exit (h : Heap) (a : Addr) (m : Menu) (inp : List Char) (evs : List Event)
    (rest : List Char) (ha : h a = some m)
    (hrd : readChoice (inp.length + 1) inp = (evs, ReadEnd.got 0 rest)) :
    display h a inp =
      { trace := Event.out (render m) :: evs, rest := rest, status := Status.returned,
        sels := [0] } := by
  rw [display_eq]
  unfold displayBody
  simp [ha, hrd]

theorem display_invalid (h : Heap) (a : Addr) (m : Menu) (inp : List Char)
    (evs : List Event) (k : Int) (rest : List Char) (ha : h a = some m)
    (hrd : readChoice (inp.length + 1) inp = (evs, ReadEnd.got k rest))
    (hk0 : k ≠ 0) (hk : ¬(k > 0 ∧ k ≤ toInt32 m.items.length)) :
    display h a inp =
      (display h a rest).after
        (Event.out (render m) :: evs ++ [Event.out (invalidChoiceMsg m.items.length)]) [k] := by
  rw [display_eq]
  unfold displayBody
  simp only [ha, hrd, if_neg hk0, if_neg hk, List.cons_append]

theorem display_func (h : Heap) (a : Addr) (m : Menu) (inp : List Char)
    (evs : List Event) (k : Int) (rest : List Char) (item : MenuItem) (f : FuncPtr)
    (ha : h a = some m)
    (hrd : readChoice (inp.length + 1) inp = (evs, ReadEnd.got k rest))
    (hk0 : k ≠ 0) (hk : k > 0 ∧ k ≤ toInt32 m.items.length)
    (hit : m.items[(k - 1).toNat]? = some item)
    (htag : item.isSubmenu = false) (hact : item.action = Action.func f) :
    display h a inp =
      (display h a rest).after (Event.out (render m) :: evs ++ [Event.call f]) [k] := by
  rw [display_eq]
  unfold displayBody
  simp only [ha, hrd, if_neg hk0, if_pos hk, hit, htag, hact, List.cons_append]
  rfl

theorem display_submenu (h : Heap) (a : Addr) (m : Menu) (inp : List Char)
    (evs : List Event) (k : Int) (rest : List Char) (item : MenuItem) (c : Addr)
    (ha : h a = some m)
    (hrd : readChoice (inp.length + 1) inp = (evs, ReadEnd.got k rest))
    (hk0 : k ≠ 0) (hk : k > 0 ∧ k ≤ toInt32 m.items.length)
    (hit : m.items[(k - 1).toNat]? = some item)
    (htag : item.isSubmenu = true) (hact : item.action = Action.submenu c) :
    display h a inp =
      if (display h c rest).status = Status.returned then
        (display h a (display h c rest).rest).after
          (Event.out (render m) :: evs ++ Event.enter c :: (display h c rest).trace ++
            [Event.leave c]) [k]
      else
        { trace := Event.out (render m) :: evs ++ Event.enter c :: (display h c rest).trace,
          rest := (display h c rest).rest, status := (display h c rest).status,
          sels := [k] } := by
  rw [display_eq]
  unfold displayBody
  simp only [ha, hrd, if_neg hk0, if_pos hk, hit, htag, hact, List.cons_append]
  rfl

/-- The conversion to `int` never exceeds the size it converts. -/
theorem toInt32_le (n : Nat) : toInt32 n ≤ (n : Int) := by
  unfold toInt32
  omega

/-- The conversion to `int` is exact below `2^31`. -/
theorem toInt32_small (n : Nat) (hn : n < 2147483648) : toInt32 n = (n : Int) := by
  unfold toInt32
  omega

/-! ## Construction -/

theorem foldl_apply (calls : List Call) : ∀ m : Menu,
    calls.foldl Call.apply m =
      { title := m.title, description := m.description,
        items := m.items ++ calls.map Call.item } := by
  induction calls with
  | nil => intro m; simp
  | cons c cs ih =>
    intro m
    rw [List.foldl_cons, ih]
    cases c <;> simp [Call.apply, Call.item, Menu.addItem, Menu.addSubmenu]

theorem build_eq (title description : String) (calls : List Call) :
    build title description calls =
      { title := title, description := description, items := calls.map Call.item } := by
  unfold build
  rw [foldl_apply]
  simp [Menu.new]

theorem itemLine_item (i : Nat) (c : Call) : itemLine i c.item = specLine (i + 1) c := by
  unfold itemLine specLine
  cases c <;> simp only [Call.item, MenuItem.mkFunc, MenuItem.mkSubmenu, Call.name,
    Call.description, ne_eq, ite_not]

theorem renderItems_spec (calls : List Call) : ∀ pre : List MenuItem,
    renderItems (pre ++ calls.map Call.item) pre.length calls.length =
      specLines (pre.length + 1) calls := by
  induction calls with
  | nil => intro pre; rfl
  | cons c cs ih =>
    intro pre
    have hget : (pre ++ (c :: cs).map Call.item)[pre.length]? = some c.item := by
      rw [List.getElem?_append_right (Nat.le_refl _)]
      simp
    simp only [List.length_cons, renderItems, hget, specLines]
    have := ih (pre ++ [c.item])
    simp only [List.append_assoc, List.singleton_append, List.length_append,
      List.length_singleton] at this
    rw [itemLine_item]
    exact congrArg _ this

theorem render_build (title description : String) (calls : List Call) :
    render (build title description calls) = specRender title description calls := by
  rw [build_eq]
  unfold render specRender
  have := renderItems_spec calls []
  simp only [List.nil_append, List.length_nil, Nat.zero_add] at this
  simp only [List.length_map, this, ne_eq, ite_not]

/-- Every run of `display` on an existing menu begins with one render of that menu. -/
theorem display_trace_head (h : Heap) (a : Addr) (m : Menu) (inp : List Char)
    (ha : h a = some m) :
    ∃ tail, (display h a inp).trace = Event.out (render m) :: tail := by
  rw [display_eq]
  unfold displayBody
  simp only [ha]
  split
  · exact ⟨_, rfl⟩
  · exact ⟨_, rfl⟩
  · split_ifs
    · exact ⟨_, rfl⟩
    · split
      · exact ⟨_, rfl⟩
      · split_ifs
        · split
          · exact ⟨_, by simp only [Outcome.after_trace, List.cons_append]; rfl⟩
          · exact ⟨_, rfl⟩
        · split
          · split_ifs
            · exact ⟨_, by simp only [Outcome.after_trace, List.cons_append]; rfl⟩
            · exact ⟨_, rfl⟩
          · exact ⟨_, rfl⟩
    · exact ⟨_, by simp only [Outcome.after_trace, List.cons_append]; rfl⟩

/-! ## Safety of the dispatch -/

/-- The guard of line 123 keeps the index inside the vector. -/
theorem guard_in_bounds (n : Nat) (choice : Int) (hg : choice > 0 ∧ choice ≤ toInt32 n) :
    1 ≤ choice ∧ choice ≤ (n : Int) ∧ (choice - 1).toNat < n := by
  have := toInt32_le n
  omega

theorem displayBody_no_outOfBounds (self : Addr → List Char → Outcome) (h : Heap)
    (a : Addr) (inp : List Char) (hself : ∀ x r, (self x r).status ≠ Status.outOfBounds) :
    (displayBody self h a inp).status ≠ Status.outOfBounds := by
  unfold displayBody
  split
  · simp
  · rename_i m hm
    simp only []
    split
    · simp
    · simp
    · rename_i choice rest hgot
      split_ifs with h0 hg
      · simp
      · split
        · rename_i hnone
          have hb := (guard_in_bounds m.items.length choice hg).2.2
          have := List.getElem?_eq_none_iff.mp hnone
          omega
        · split_ifs
          · split
            · simp only [Outcome.after_status]; exact hself _ _
            · simp
          · split
            · split_ifs
              · simp only [Outcome.after_status]; exact hself _ _
              · exact hself _ _
            · simp
      · simp only [Outcome.after_status]; exact hself _ _

theorem displayFuel_no_outOfBounds (f : Nat) : ∀ (h : Heap) (a : Addr) (inp : List Char),
    (displayFuel f h a inp).status ≠ Status.outOfBounds := by
  induction f with
  | zero => intro h a inp; simp [displayFuel]
  | succ f ih =>
    intro h a inp
    rw [displayFuel]
    exact displayBody_no_outOfBounds _ h a inp (fun x r => ih h x r)

/-! ## How a run ends -/

theorem sels_cons (c : Int) (l : List Int) (hc : c ≠ 0)
    (hl : l.getLast? = some 0 ∧ l.count 0 = 1) :
    ([c] ++ l).getLast? = some 0 ∧ ([c] ++ l).count 0 = 1 := by
  cases l with
  | nil => simp at hl
  | cons x xs =>
    refine ⟨?_, ?_⟩
    · simpa [List.getLast?_cons_cons] using hl.1
    · have : (c == 0) = false := by simpa using hc
      simp only [List.singleton_append, List.count_cons, this]
      simpa [List.count_cons] using hl.2

/-- One iteration returns only after its own selection 0, read once, if the calls it makes
do. -/
theorem displayBody_sels (self : Addr → List Char → Outcome) (h : Heap) (a : Addr)
    (inp : List Char)
    (hself : ∀ x r, (self x r).status = Status.returned →
      (self x r).sels.getLast? = some 0 ∧ (self x r).sels.count 0 = 1) :
    (displayBody self h a inp).status = Status.returned →
      (displayBody self h a inp).sels.getLast? = some 0 ∧
      (displayBody self h a inp).sels.count 0 = 1 := by
  unfold displayBody
  split
  · simp
  · simp only []
    split
    · simp
    · simp
    · rename_i choice rest hgot
      split_ifs with h0 hg
      · intro _; subst h0; simp
      · split
        · simp
        · split_ifs
          · split
            · intro hst
              exact sels_cons choice _ h0 (hself _ _ hst)
            · simp
          · split
            · split_ifs with hsub
              · intro hst
                exact sels_cons choice _ h0 (hself _ _ hst)
              · intro hst
                exact absurd hst hsub
            · simp
      · intro hst
        exact sels_cons choice _ h0 (hself _ _ hst)

theorem displayFuel_sels (f : Nat) : ∀ (h : Heap) (a : Addr) (inp : List Char),
    (displayFuel f h a inp).status = Status.returned →
      (displayFuel f h a inp).sels.getLast? = some 0 ∧
      (displayFuel f h a inp).sels.count 0 = 1 := by
  induction f with
  | zero => intro h a inp; simp [displayFuel]
  | succ f ih =>
    intro h a inp
    rw [displayFuel]
    exact displayBody_sels _ h a inp (fun x r => ih h x r)

/-- One iteration does not run out of fuel, if the calls it makes on shorter inputs do
not. -/
theorem displayBody_ne_outOfFuel (self : Addr → List Char → Outcome) (h : Heap) (a : Addr)
    (inp : List Char) (hrest : ∀ x r, (self x r).rest.length ≤ r.length)
    (hself : ∀ x r, r.length < inp.length → (self x r).status ≠ Status.outOfFuel) :
    (displayBody self h a inp).status ≠ Status.outOfFuel := by
  unfold displayBody
  split
  · simp
  · simp only []
    split
    · rename_i hout
      exact absurd hout (readChoice_ne_outOfFuel inp)
    · simp
    · rename_i choice rest hgot
      have hlt := readChoice_got_length inp choice rest hgot
      split_ifs
      · simp
      · split
        · simp
        · split_ifs
          · split
            · simp only [Outcome.after_status]; exact hself _ _ hlt
            · simp
          · split
            · rename_i c _
              have h2 := hrest c rest
              split_ifs
              · simp only [Outcome.after_status]; exact hself _ _ (by omega)
              · exact hself _ _ hlt
            · simp
      · simp only [Outcome.after_status]; exact hself _ _ hlt

/-- The fuel of `display` always suffices. -/
theorem display_ne_outOfFuel (h : Heap) (n : Nat) : ∀ (inp : List Char), inp.length ≤ n →
    ∀ a, (display h a inp).status ≠ Status.outOfFuel := by
  induction n with
  | zero =>
    intro inp hl a
    rw [display_eq]
    exact displayBody_ne_outOfFuel _ h a inp (fun x r => display_rest_le h x r)
      (fun x r hr => by omega)
  | succ n ih =>
    intro inp hl a
    rw [display_eq]
    exact displayBody_ne_outOfFuel _ h a inp (fun x r => display_rest_le h x r)
      (fun x r hr => ih r (by omega) x)

/-- The first own selection of a run is the integer the first successful extraction
delivers. -/
theorem display_sels_head (h : Heap) (a : Addr) (m : Menu) (inp : List Char)
    (evs : List Event) (k : Int) (rest : List Char) (ha : h a = some m)
    (hrd : readChoice (inp.length + 1) inp = (evs, ReadEnd.got k rest)) :
    (display h a inp).sels.head? = some k := by
  rw [display_eq]
  unfold displayBody
  simp only [ha, hrd]
  split_ifs
  · rfl
  · split
    · rfl
    · split_ifs
      · split <;> rfl
      · split
        · split_ifs <;> rfl
        · rfl
  · rfl

/-! ## A line that holds no integer -/

theorem ignoreLine_append (u s : List Char) (hu : ∀ c ∈ u, c ≠ '\n') :
    ignoreLine (u ++ '\n' :: s) = s := by
  induction u with
  | nil => simp [ignoreLine]
  | cons c u ih =>
    have hc : c ≠ '\n' := hu c (by simp)
    simp only [List.cons_append, ignoreLine, if_neg hc]
    exact ih (fun d hd => hu d (by simp [hd]))

theorem afterSign_append (c : Char) (cs x : List Char) :
    afterSign (c :: cs ++ x) = afterSign (c :: cs) ++ x := by
  by_cases h1 : c = '-'
  · subst h1; rfl
  · by_cases h2 : c = '+'
    · subst h2; rfl
    · have e1 : ∀ l, afterSign (c :: l) = c :: l := by
        intro l
        unfold afterSign
        split <;> simp_all
      rw [List.cons_append, e1, e1]
      rfl

theorem afterSign_subset (t : List Char) : ∀ c ∈ afterSign t, c ∈ t := by
  unfold afterSign
  split <;> simp_all

/-- Extraction fails on a token that does not begin with an integer, and leaves the stream
inside the line of that token. -/
theorem readInt_bad_token (t s : List Char) (ht : IsToken t)
    (hbad : NoDigitAhead (afterSign t)) :
    readInt (t ++ '\n' :: s) = (none, afterSign t ++ '\n' :: s) := by
  obtain ⟨hne, hsp⟩ := ht
  cases t with
  | nil => exact absurd rfl hne
  | cons c cs =>
    have hc : isSpace c = false := hsp c (by simp)
    have hdrop : (c :: cs ++ '\n' :: s).dropWhile isSpace = c :: cs ++ '\n' :: s := by
      simp [List.dropWhile_cons, hc]
    have hahead : NoDigitAhead (afterSign (c :: cs) ++ '\n' :: s) := by
      unfold NoDigitAhead at hbad ⊢
      cases hu : afterSign (c :: cs) with
      | nil =>
        intro d hd
        simp only [List.nil_append, List.head?_cons, Option.mem_def,
          Option.some.injEq] at hd
        subst hd
        decide
      | cons u us =>
        rw [hu] at hbad
        intro d hd
        exact hbad d (by simpa using hd)
    have htk := takeWhile_digits [] (afterSign (c :: cs) ++ '\n' :: s) (by simp) hahead
    simp only [List.nil_append] at htk
    unfold readInt
    simp only [hdrop, afterSign_append, htk.1, htk.2, if_true]

/-- The reading loop on such a line: one message, one prompt, then the loop on what
follows the line. -/
theorem readChoice_bad_token (t s : List Char) (ht : IsToken t)
    (hbad : NoDigitAhead (afterSign t)) :
    readChoice ((t ++ '\n' :: s).length + 1) (t ++ '\n' :: s) =
      (Event.out invalidInputMsg :: Event.out promptMsg :: (readChoice (s.length + 1) s).1,
        (readChoice (s.length + 1) s).2) := by
  have hr := readInt_bad_token t s ht hbad
  have hnl : ∀ c ∈ afterSign t, c ≠ '\n' := by
    intro c hc hcn
    have := ht.2 c (afterSign_subset t c hc)
    rw [hcn] at this
    revert this
    decide
  have := readChoice_fail (t ++ '\n' :: s) _ hr (by simp)
  rw [ignoreLine_append _ s hnl] at this
  exact this

/-- One iteration whose reading loop printed one more message and prompt. -/
theorem displayBody_afterInvalid (self : Addr → List Char → Outcome) (h : Heap) (a : Addr)
    (m : Menu) (inp1 inp2 : List Char) (ha : h a = some m)
    (hrd : readChoice (inp1.length + 1) inp1 =
      (Event.out invalidInputMsg :: Event.out promptMsg ::
          (readChoice (inp2.length + 1) inp2).1,
        (readChoice (inp2.length + 1) inp2).2)) :
    displayBody self h a inp1 = afterInvalidInput (displayBody self h a inp2) := by
  have hno := readChoice_ne_outOfFuel inp2
  unfold displayBody
  simp only [ha, hrd]
  rcases hr2 : readChoice (inp2.length + 1) inp2 with ⟨evs, e⟩
  rw [hr2] at hno
  cases e with
  | outOfFuel => exact absurd rfl hno
  | eof => simp [afterInvalidInput]
  | got choice rest =>
    simp only []
    split_ifs
    · simp [afterInvalidInput]
    · split
      · simp [afterInvalidInput]
      · split_ifs
        · split
          · simp [afterInvalidInput, Outcome.after]
          · simp [afterInvalidInput]
        · split
          · split_ifs
            · simp [afterInvalidInput, Outcome.after]
            · simp [afterInvalidInput]
          · simp [afterInvalidInput]
    · simp [afterInvalidInput, Outcome.after]

/-! ## The claims -/

/-- C1: for a menu built from a fresh `Menu(title, description)` by any sequence of
`addItem`/`addSubmenu` calls, one render is the title line, the framed description when it
is not empty, one numbered line per call in call order (numbered from 1, with the
description suffix when it is not empty), the line "0. Exit" and the prompt "Choice: ";
and every run of `display` on that menu begins by emitting exactly this text. -/
theorem C1_render_format (title description : String) (calls : List Call) (h : Heap)
    (a : Addr) (inp : List Char) (ha : h a = some (build title description calls)) :
    render (build title description calls) = specRender title description calls ∧
    ∃ tail, (display h a inp).trace =
      Event.out (specRender title description calls) :: tail := by
  refine ⟨render_build title description calls, ?_⟩
  rw [← render_build]
  exact display_trace_head h a _ inp ha

/-- C1 at the root menu of the scenario: the render is the text the specification gives. -/
theorem C1_render_format_witness :
    demoHeap 0 = some (build "Root" ""
      [Call.addItem "Start" startFn "", Call.addSubmenu "Config" 1 ""]) ∧
    specRender "Root" "" [Call.addItem "Start" startFn "", Call.addSubmenu "Config" 1 ""] =
      "\n=== Root ===\n1. Start\n2. Config\n0. Exit\nChoice: " ∧
    (render (build "Root" "" [Call.addItem "Start" startFn "", Call.addSubmenu "Config" 1 ""]) =
      specRender "Root" "" [Call.addItem "Start" startFn "", Call.addSubmenu "Config" 1 ""] ∧
    ∃ tail, (display demoHeap 0 ['0']).trace =
      Event.out (specRender "Root" ""
        [Call.addItem "Start" startFn "", Call.addSubmenu "Config" 1 ""]) :: tail) :=
  ⟨rfl, by decide, C1_render_format "Root" ""
    [Call.addItem "Start" startFn "", Call.addSubmenu "Config" 1 ""] demoHeap 0 ['0'] rfl⟩

/-- C2: when the first extraction of `display` delivers the integer 0, the call returns
after exactly one render, with no callback invoked and no nested `display`, and the input
left is what the extraction of that token left. -/
theorem C2_zero_returns (h : Heap) (a : Addr) (m : Menu) (inp rest : List Char)
    (ha : h a = some m) (hz : readInt inp = (some 0, rest)) :
    display h a inp =
      { trace := [Event.out (render m)], rest := rest, status := Status.returned,
        sels := [0] } :=
  display_exit h a m inp [] rest ha (readChoice_ok inp 0 rest hz)

/-- C2 at the root menu of the scenario, on the input "0", newline, "1". -/
theorem C2_zero_returns_witness :
    demoHeap 0 = some demoRoot ∧ readInt ['0', '\n', '1'] = (some 0, ['\n', '1']) ∧
    display demoHeap 0 ['0', '\n', '1'] =
      { trace := [Event.out (render demoRoot)], rest := ['\n', '1'],
        status := Status.returned, sels := [0] } :=
  ⟨rfl, by decide, C2_zero_returns demoHeap 0 demoRoot _ _ rfl (by decide)⟩

/-- C8: a fresh menu has no items; `addItem` appends one function item (tag false, the
given callback) and `addSubmenu` appends one submenu item (tag true, the given pointer),
both with the given name and description; the size grows by one, the earlier items, the
title and the description are unchanged. -/
theorem C8_append_only (m : Menu) (name desc : String) (f : FuncPtr) (c : Addr)
    (t d : String) :
    (Menu.new t d).items = [] ∧
    (m.addItem name f desc).items =
      m.items ++ [{ name := name, description := desc, action := Action.func f,
                    isSubmenu := false }] ∧
    (m.addSubmenu name c desc).items =
      m.items ++ [{ name := name, description := desc, action := Action.submenu c,
                    isSubmenu := true }] ∧
    (m.addItem name f desc).items.length = m.items.length + 1 ∧
    (m.addSubmenu name c desc).items.length = m.items.length + 1 ∧
    (m.addItem name f desc).items.take m.items.length = m.items ∧
    (m.addSubmenu name c desc).items.take m.items.length = m.items ∧
    (m.addItem name f desc).title = m.title ∧
    (m.addItem name f desc).description = m.description ∧
    (m.addSubmenu name c desc).title = m.title ∧
    (m.addSubmenu name c desc).description = m.description := by
  simp [Menu.new, Menu.addItem, Menu.addSubmenu, MenuItem.mkFunc, MenuItem.mkSubmenu]

/-- C10: no run of `display` indexes `items` outside the vector, whatever the heap, the
menu and the input; and whenever the guard of line 123 lets a choice through to the
dispatch, `1 <= choice <= N` and the index `choice - 1` is below `N` (so a choice of 0 and
a menu without items never reach the dispatch). -/
theorem C10_dispatch_in_bounds (h : Heap) (a : Addr) (inp : List Char) (n : Nat)
    (choice : Int) :
    (display h a inp).status ≠ Status.outOfBounds ∧
    (¬(choice > 0 ∧ choice ≤ toInt32 n) ∨
      (1 ≤ choice ∧ choice ≤ (n : Int) ∧ (choice - 1).toNat < n ∧ n ≠ 0)) := by
  refine ⟨displayFuel_no_outOfBounds _ h a inp, ?_⟩
  by_cases hg : choice > 0 ∧ choice ≤ toInt32 n
  · right
    have := guard_in_bounds n choice hg
    omega
  · left; exact hg

/-- C4 as stated fails: the integer 2147483648 is written in the input and exceeds the two
items of the root menu, yet `display` prints the invalid-input message, not the
invalid-choice message, and does not render again before the next prompt. -/
theorem C4_counterexample :
    demoHeap 0 = some demoRoot ∧ demoRoot.items.length = 2 ∧
    numeral 2147483648 = "2147483648".toList ∧
    display demoHeap 0 "2147483648\n0".toList =
      { trace := [Event.out (render demoRoot), Event.out invalidInputMsg,
                  Event.out promptMsg],
        rest := [], status := Status.returned, sels := [0] } ∧
    Event.out (invalidChoiceMsg 2) ∉ (display demoHeap 0 "2147483648\n0".toList).trace := by
  decide

/-- C4, amended: for every integer `k` that fits an `int`, written in the input, with
`k < 0` or `k > N`, `display` prints exactly the invalid-choice message citing `N`, invokes
no callback and no nested `display`, and goes on as a fresh iteration on the input that
follows, which begins with the full render. -/
theorem C4_out_of_range (h : Heap) (a : Addr) (m : Menu) (ws rest : List Char) (k : Int)
    (ha : h a = some m) (hws : AllSpace ws) (hrest : NoDigitAhead rest)
    (hint : INT_MIN ≤ k ∧ k ≤ INT_MAX) (hk : k < 0 ∨ k > (m.items.length : Int)) :
    display h a (ws ++ numeral k ++ rest) =
      (display h a rest).after
        [Event.out (render m), Event.out (invalidChoiceMsg m.items.length)] [k] ∧
    ∃ tail, (display h a rest).trace = Event.out (render m) :: tail := by
  refine ⟨?_, display_trace_head h a m rest ha⟩
  have hrd := readChoice_ok _ k rest (readInt_numeral ws rest k hws hrest hint)
  have hle := toInt32_le m.items.length
  have := display_invalid h a m _ [] k rest ha hrd (by omega) (by omega)
  simpa using this

/-- C4, amended, at the root menu of the scenario with the input "3", newline. -/
theorem C4_out_of_range_witness :
    demoHeap 0 = some demoRoot ∧ AllSpace [] ∧ NoDigitAhead ['\n'] ∧
    (INT_MIN ≤ 3 ∧ (3 : Int) ≤ INT_MAX) ∧
    ((3 : Int) < 0 ∨ (3 : Int) > (demoRoot.items.length : Int)) ∧
    (display demoHeap 0 ([] ++ numeral 3 ++ ['\n']) =
      (display demoHeap 0 ['\n']).after
        [Event.out (render demoRoot), Event.out (invalidChoiceMsg demoRoot.items.length)]
        [3] ∧
    ∃ tail, (display demoHeap 0 ['\n']).trace = Event.out (render demoRoot) :: tail) :=
  ⟨rfl, by decide, by decide, by decide, by decide,
    C4_out_of_range demoHeap 0 demoRoot [] ['\n'] 3 rfl (by decide) (by decide)
      (by decide) (by decide)⟩

/-- C5 as stated fails: on a menu of `2^31` function items the selection 1 is in
`1..N`, yet `display` prints the invalid-choice message and invokes no callback, because
`static_cast<int>(items.size())` is negative. -/
theorem C5_counterexample :
    bigHeap 0 = some bigMenu ∧ bigMenu.items.length = 2147483648 ∧
    bigMenu.items[0]? = some (MenuItem.mkFunc "Go" startFn "") ∧
    toInt32 bigMenu.items.length = -2147483648 ∧
    display bigHeap 0 ['1', '\n'] =
      { trace := [Event.out (render bigMenu), Event.out (invalidChoiceMsg 2147483648),
                  Event.out (render bigMenu), Event.out invalidInputMsg,
                  Event.out promptMsg, Event.out invalidInputMsg, Event.out promptMsg],
        rest := [], status := Status.spinning, sels := [1] } := by
  have hitems : bigMenu.items = List.replicate 2147483648 (MenuItem.mkFunc "Go" startFn "") :=
    rfl
  have hlen : bigMenu.items.length = 2147483648 := by
    rw [hitems]; exact List.length_replicate _ _
  have hcast : toInt32 bigMenu.items.length = -2147483648 := by rw [hlen]; decide
  have hget : bigMenu.items[0]? = some (MenuItem.mkFunc "Go" startFn "") := by
    rw [hitems, List.getElem?_replicate, if_pos (by decide)]
  refine ⟨rfl, hlen, hget, hcast, ?_⟩
  have h1 : readChoice (['1', '\n'].length + 1) ['1', '\n'] = ([], ReadEnd.got 1 ['\n']) := by
    decide
  have h2 : readChoice (['\n'].length + 1) ['\n'] =
      ([Event.out invalidInputMsg, Event.out promptMsg, Event.out invalidInputMsg,
        Event.out promptMsg], ReadEnd.eof) := by
    decide
  rw [display_invalid bigHeap 0 bigMenu _ [] 1 ['\n'] rfl h1 (by decide)
      (by rw [hcast]; decide),
    display_eof bigHeap 0 bigMenu _ _ rfl h2, hlen]
  rfl

/-- C5, amended: on a menu of at most `2^31 - 1` items, when `display` reads the integer
`i` with `1 <= i <= N` and the `i`-th item is a function item, it invokes the callback of
that item exactly once, nothing else, prints no error message, and goes on as a fresh
iteration on the input that follows, which begins with the full render of the same menu. -/
theorem C5_action_selected (h : Heap) (a : Addr) (m : Menu) (ws rest : List Char) (i : Nat)
    (item : MenuItem) (f : FuncPtr) (ha : h a = some m) (hws : AllSpace ws)
    (hrest : NoDigitAhead rest) (hi : 1 ≤ i ∧ i ≤ m.items.length)
    (hn : m.items.length ≤ 2147483647) (hit : m.items[i - 1]? = some item)
    (htag : item.isSubmenu = false) (hact : item.action = Action.func f) :
    display h a (ws ++ numeral (i : Int) ++ rest) =
      (display h a rest).after [Event.out (render m), Event.call f] [(i : Int)] ∧
    ∃ tail, (display h a rest).trace = Event.out (render m) :: tail := by
  refine ⟨?_, display_trace_head h a m rest ha⟩
  have hint : INT_MIN ≤ (i : Int) ∧ (i : Int) ≤ INT_MAX := by
    unfold INT_MIN INT_MAX; omega
  have hrd := readChoice_ok _ (i : Int) rest (readInt_numeral ws rest i hws hrest hint)
  have hcast := toInt32_small m.items.length (by omega)
  have hidx : ((i : Int) - 1).toNat = i - 1 := by omega
  have := display_func h a m _ [] (i : Int) rest item f ha hrd (by omega)
    (by rw [hcast]; omega) (by rw [hidx]; exact hit) htag hact
  simpa using this

/-- C5, amended, at the root menu of the scenario: the input "1", newline invokes "Start". -/
theorem C5_action_selected_witness :
    demoHeap 0 = some demoRoot ∧ AllSpace [] ∧ NoDigitAhead ['\n'] ∧
    (1 ≤ 1 ∧ 1 ≤ demoRoot.items.length) ∧ demoRoot.items.length ≤ 2147483647 ∧
    demoRoot.items[1 - 1]? = some (MenuItem.mkFunc "Start" startFn "") ∧
    (display demoHeap 0 ([] ++ numeral ((1 : Nat) : Int) ++ ['\n']) =
      (display demoHeap 0 ['\n']).after
        [Event.out (render demoRoot), Event.call startFn] [((1 : Nat) : Int)] ∧
    ∃ tail, (display demoHeap 0 ['\n']).trace = Event.out (render demoRoot) :: tail) :=
  ⟨rfl, by decide, by decide, by decide, by decide, by decide,
    C5_action_selected demoHeap 0 demoRoot [] ['\n'] 1 (MenuItem.mkFunc "Start" startFn "")
      startFn rfl (by decide) (by decide) (by decide) (by decide) (by decide) rfl rfl⟩

/-- C7: a call of `display` that returns has read the selection 0 at its own level, as
its last selection and exactly once; on exhausted input the call does not return; the
model never runs out of fuel, so that a run which does not read its own 0 ends by spinning
on exhausted input (or in undefined behaviour), never by returning; and after a submenu
was entered the parent returns only if the child returned and the parent's own
continuation, on the input the child left, returned too (one level per 0). -/
theorem C7_returns_only_on_zero (h : Heap) (a : Addr) (inp : List Char) (p c : Addr)
    (P : Menu) (i : Int) (s : List Char) :
    ((display h a inp).status = Status.returned →
      (display h a inp).sels.getLast? = some 0 ∧ (display h a inp).sels.count 0 = 1) ∧
    (display h a []).status ≠ Status.returned ∧
    (display h a inp).status ≠ Status.outOfFuel ∧
    ((nestedOutcome h p c P i s).status = Status.returned →
      (display h c s).status = Status.returned ∧
      (display h p (display h c s).rest).status = Status.returned) := by
  refine ⟨displayFuel_sels _ h a inp, ?_, display_ne_outOfFuel h inp.length inp
    (Nat.le_refl _) a, ?_⟩
  · intro hret
    cases hm : h a with
    | none =>
      rw [display_badPointer h a [] hm] at hret
      simp at hret
    | some m =>
      rw [display_eof h a m [] _ hm (readChoice_nil 0)] at hret
      simp at hret
  · unfold nestedOutcome
    split_ifs with hc
    · intro hret
      exact ⟨hc, by simpa using hret⟩
    · intro hret
      exact absurd hret hc

/-- C7 on the scenario: on "2 1 0 0" (one per line) the root returns after its own
selections 2 and 0, the first 0 having ended the child only; on "2 0" the child returns
and the root, left without input, does not. -/
theorem C7_returns_only_on_zero_witness :
    (display demoHeap 0 "2\n1\n0\n0\n".toList).status = Status.returned ∧
    (display demoHeap 0 "2\n1\n0\n0\n".toList).sels = [2, 0] ∧
    (display demoHeap 0 "2\n0\n".toList).status = Status.spinning ∧
    (display demoHeap 0 "2\n0\n".toList).sels = [2] ∧
    (display demoHeap 1 "\n0\n".toList).status = Status.returned ∧
    ((display demoHeap 0 "2\n1\n0\n0\n".toList).sels.getLast? = some 0 ∧
      (display demoHeap 0 "2\n1\n0\n0\n".toList).sels.count 0 = 1) :=
  ⟨by decide, by decide, by decide, by decide, by decide,
    (C7_returns_only_on_zero demoHeap 0 "2\n1\n0\n0\n".toList 0 1 demoRoot 2 []).1
      (by decide)⟩

/-- C9 as stated fails: on the line "1 0" the extraction of 1 leaves " 0" in the stream
instead of consuming the line, and `display` then reads that 0 as its next selection
and returns. -/
theorem C9_counterexample :
    readInt "1 0\n".toList = (some 1, " 0\n".toList) ∧
    ignoreLine "1 0\n".toList = [] ∧
    display demoHeap 0 "1 0\n".toList =
      { trace := [Event.out (render demoRoot), Event.call startFn,
                  Event.out (render demoRoot)],
        rest := ['\n'], status := Status.returned, sels := [1, 0] } := by
  decide

/-- C9, amended: at each prompt `display` extracts one integer token.  A selection written
as an integer that fits an `int` consumes the white space before it and its own sign and
digits, nothing more: the reading loop delivers it with the stream left right after its
last digit, it is the first selection of the run, and `display` goes on from exactly the
text `rest` that follows it on the same line.  On 0 it returns and leaves `rest`; on a
choice the guard of line 123 rejects it prints the invalid-choice message and continues as
`display` on `rest`; on a function item it invokes the callback and continues as `display`
on `rest`; on a submenu item the child runs on `rest` and the parent on what the child
left. -/
theorem C9_token_consumed (h : Heap) (a : Addr) (m : Menu) (ws rest : List Char) (k : Int)
    (ha : h a = some m) (hws : AllSpace ws) (hrest : NoDigitAhead rest)
    (hint : INT_MIN ≤ k ∧ k ≤ INT_MAX) :
    readChoice ((ws ++ numeral k ++ rest).length + 1) (ws ++ numeral k ++ rest) =
      ([], ReadEnd.got k rest) ∧
    (display h a (ws ++ numeral k ++ rest)).sels.head? = some k ∧
    (k = 0 →
      display h a (ws ++ numeral k ++ rest) =
        { trace := [Event.out (render m)], rest := rest, status := Status.returned,
          sels := [0] }) ∧
    (k ≠ 0 → ¬(k > 0 ∧ k ≤ toInt32 m.items.length) →
      display h a (ws ++ numeral k ++ rest) =
        (display h a rest).after
          [Event.out (render m), Event.out (invalidChoiceMsg m.items.length)] [k]) ∧
    (∀ (item : MenuItem) (f : FuncPtr), k > 0 ∧ k ≤ toInt32 m.items.length →
      m.items[(k - 1).toNat]? = some item → item.isSubmenu = false →
      item.action = Action.func f →
      display h a (ws ++ numeral k ++ rest) =
        (display h a rest).after [Event.out (render m), Event.call f] [k]) ∧
    (∀ (item : MenuItem) (c : Addr), k > 0 ∧ k ≤ toInt32 m.items.length →
      m.items[(k - 1).toNat]? = some item → item.isSubmenu = true →
      item.action = Action.submenu c →
      display h a (ws ++ numeral k ++ rest) = nestedOutcome h a c m k rest) := by
  have hrd := readChoice_ok _ k rest (readInt_numeral ws rest k hws hrest hint)
  refine ⟨hrd, display_sels_head h a m _ [] k rest ha hrd, ?_, ?_, ?_, ?_⟩
  · intro hk
    subst hk
    exact display_exit h a m _ [] rest ha hrd
  · intro hk0 hg
    have := display_invalid h a m _ [] k rest ha hrd hk0 hg
    simpa using this
  · intro item f hg hit htag hact
    have := display_func h a m _ [] k rest item f ha hrd (by omega) hg hit htag hact
    simpa using this
  · intro item c hg hit htag hact
    have := display_submenu h a m _ [] k rest item c ha hrd (by omega) hg hit htag hact
    rw [this]
    unfold nestedOutcome
    simp

/-- C9, amended, on the line "1 0": the selection 1 leaves " 0" and the newline, "Start"
is invoked, and `display` goes on from " 0": it reads that 0 and returns, the newline
being left. -/
theorem C9_token_consumed_witness :
    demoHeap 0 = some demoRoot ∧ AllSpace [] ∧ NoDigitAhead " 0\n".toList ∧
    (INT_MIN ≤ 1 ∧ (1 : Int) ≤ INT_MAX) ∧ [] ++ numeral 1 ++ " 0\n".toList = "1 0\n".toList ∧
    ((1 : Int) > 0 ∧ (1 : Int) ≤ toInt32 demoRoot.items.length) ∧
    demoRoot.items[((1 : Int) - 1).toNat]? = some (MenuItem.mkFunc "Start" startFn "") ∧
    readChoice (([] ++ numeral 1 ++ " 0\n".toList).length + 1)
        ([] ++ numeral 1 ++ " 0\n".toList) = ([], ReadEnd.got 1 " 0\n".toList) ∧
    display demoHeap 0 ([] ++ numeral 1 ++ " 0\n".toList) =
      (display demoHeap 0 " 0\n".toList).after
        [Event.out (render demoRoot), Event.call startFn] [1] ∧
    display demoHeap 0 " 0\n".toList =
      { trace := [Event.out (render demoRoot)], rest := ['\n'],
        status := Status.returned, sels := [0] } ∧
    (display demoHeap 0 "1 0\n".toList).sels = [1, 0] :=
  ⟨rfl, by decide, by decide, by decide, by decide, by decide, by decide,
    (C9_token_consumed demoHeap 0 demoRoot [] " 0\n".toList 1 rfl (by decide) (by decide)
      (by decide)).1,
    (C9_token_consumed demoHeap 0 demoRoot [] " 0\n".toList 1 rfl (by decide) (by decide)
      (by decide)).2.2.2.2.1 (MenuItem.mkFunc "Start" startFn "") startFn (by decide)
      (by decide) rfl rfl,
    by decide, by decide⟩

/-- C3 as stated fails: "1x" is a token and not an integer, yet on "1x", newline, "0"
`display` first takes the selection 1 and invokes "Start", renders again, and only then
prints the invalid-input message; on "0" alone nothing is invoked. -/
theorem C3_counterexample :
    IsToken "1x".toList ∧ ¬ IsIntegerToken "1x".toList ∧ demoHeap 0 = some demoRoot ∧
    display demoHeap 0 ("1x".toList ++ '\n' :: "0\n".toList) =
      { trace := [Event.out (render demoRoot), Event.call startFn,
                  Event.out (render demoRoot), Event.out invalidInputMsg,
                  Event.out promptMsg],
        rest := ['\n'], status := Status.returned, sels := [1, 0] } ∧
    display demoHeap 0 "0\n".toList =
      { trace := [Event.out (render demoRoot)], rest := ['\n'],
        status := Status.returned, sels := [0] } ∧
    display demoHeap 0 ("1x".toList ++ '\n' :: "0\n".toList) ≠
      afterInvalidInput (display demoHeap 0 "0\n".toList) := by
  decide

/-- C3, amended: for every node, every token `t` that does not begin with an integer (no
digit follows its optional sign) and every input `s`, the run of `display` on `t`, newline,
`s` is the run on `s` alone with exactly one invalid-input message and one prompt added
right after the first render, and nothing rendered in between: same callbacks, same later
output, same selections, same input left, same ending. -/
theorem C3_invalid_token (h : Heap) (a : Addr) (m : Menu) (t s : List Char)
    (ha : h a = some m) (ht : IsToken t) (hbad : NoDigitAhead (afterSign t)) :
    display h a (t ++ '\n' :: s) = afterInvalidInput (display h a s) ∧
    ∃ tail, (display h a s).trace = Event.out (render m) :: tail ∧
      (display h a (t ++ '\n' :: s)).trace =
        Event.out (render m) :: Event.out invalidInputMsg :: Event.out promptMsg :: tail := by
  have key : display h a (t ++ '\n' :: s) = afterInvalidInput (display h a s) := by
    rw [display_eq h a (t ++ '\n' :: s), display_eq h a s]
    exact displayBody_afterInvalid (display h) h a m _ _ ha (readChoice_bad_token t s ht hbad)
  obtain ⟨tail, htail⟩ := display_trace_head h a m s ha
  refine ⟨key, tail, htail, ?_⟩
  rw [key]
  simp only [afterInvalidInput, htail]

/-- C3, amended, on the scenario: "abc", newline, then "0". -/
theorem C3_invalid_token_witness :
    demoHeap 0 = some demoRoot ∧ IsToken "abc".toList ∧
    NoDigitAhead (afterSign "abc".toList) ∧
    (display demoHeap 0 ("abc".toList ++ '\n' :: "0\n".toList) =
        afterInvalidInput (display demoHeap 0 "0\n".toList) ∧
      ∃ tail, (display demoHeap 0 "0\n".toList).trace =
          Event.out (render demoRoot) :: tail ∧
        (display demoHeap 0 ("abc".toList ++ '\n' :: "0\n".toList)).trace =
          Event.out (render demoRoot) :: Event.out invalidInputMsg ::
            Event.out promptMsg :: tail) :=
  ⟨rfl, by decide, by decide,
    C3_invalid_token demoHeap 0 demoRoot "abc".toList "0\n".toList rfl (by decide)
      (by decide)⟩

/-- C6 as stated fails: on a menu of `2^31` submenu items the selection 1 is in `1..N` and
its item points to the child, yet `display` prints the invalid-choice message and never
enters the child, because `static_cast<int>(items.size())` is negative. -/
theorem C6_counterexample :
    bigHeap 2 = some bigParent ∧ bigHeap 1 = some demoChild ∧
    bigParent.items.length = 2147483648 ∧
    bigParent.items[0]? = some (MenuItem.mkSubmenu "Config" 1 "") ∧
    display bigHeap 2 "1\n0\n".toList =
      { trace := [Event.out (render bigParent), Event.out (invalidChoiceMsg 2147483648),
                  Event.out (render bigParent)],
        rest := ['\n'], status := Status.returned, sels := [1, 0] } := by
  have hitems : bigParent.items =
      List.replicate 2147483648 (MenuItem.mkSubmenu "Config" 1 "") := rfl
  have hlen : bigParent.items.length = 2147483648 := by
    rw [hitems]; exact List.length_replicate _ _
  have hcast : toInt32 bigParent.items.length = -2147483648 := by rw [hlen]; decide
  have hget : bigParent.items[0]? = some (MenuItem.mkSubmenu "Config" 1 "") := by
    rw [hitems, List.getElem?_replicate, if_pos (by decide)]
  refine ⟨rfl, rfl, hlen, hget, ?_⟩
  have h1 : readChoice ("1\n0\n".toList.length + 1) "1\n0\n".toList =
      ([], ReadEnd.got 1 "\n0\n".toList) := by
    decide
  have h2 : readChoice ("\n0\n".toList.length + 1) "\n0\n".toList =
      ([], ReadEnd.got 0 ['\n']) := by
    decide
  rw [display_invalid bigHeap 2 bigParent _ [] 1 _ rfl h1 (by decide)
      (by rw [hcast]; decide),
    display_exit bigHeap 2 bigParent _ [] _ rfl h2, hlen]
  rfl

/-- C6, amended: on a parent menu `P` of at most `2^31 - 1` items, when `display` reads the
integer `i` with `1 <= i <= N` and the `i`-th item is a submenu item pointing to `c`, the
run is the render of `P`, then the whole run of `display` on `c` over the input that
follows; when that run returns (it does so only on reading its own 0), the parent goes on
with a fresh iteration, which begins with its full render, on the input the child left. -/
theorem C6_submenu_selected (h : Heap) (p : Addr) (P : Menu) (ws s : List Char) (i : Nat)
    (item : MenuItem) (c : Addr) (hp : h p = some P) (hws : AllSpace ws)
    (hs : NoDigitAhead s) (hi : 1 ≤ i ∧ i ≤ P.items.length)
    (hn : P.items.length ≤ 2147483647) (hit : P.items[i - 1]? = some item)
    (htag : item.isSubmenu = true) (hact : item.action = Action.submenu c) :
    display h p (ws ++ numeral (i : Int) ++ s) = nestedOutcome h p c P (i : Int) s ∧
    ((display h c s).status = Status.returned →
      (display h c s).sels.getLast? = some 0) ∧
    ∃ tail, (display h p (display h c s).rest).trace = Event.out (render P) :: tail := by
  refine ⟨?_, fun hret => (displayFuel_sels _ h c s hret).1,
    display_trace_head h p P _ hp⟩
  have hint : INT_MIN ≤ (i : Int) ∧ (i : Int) ≤ INT_MAX := by
    unfold INT_MIN INT_MAX; omega
  have hrd := readChoice_ok _ (i : Int) s (readInt_numeral ws s i hws hs hint)
  have hcast := toInt32_small P.items.length (by omega)
  have hidx : ((i : Int) - 1).toNat = i - 1 := by omega
  have := display_submenu h p P _ [] (i : Int) s item c hp hrd (by omega)
    (by rw [hcast]; omega) (by rw [hidx]; exact hit) htag hact
  rw [this]
  unfold nestedOutcome
  simp

/-- C6, amended, on the scenario of the specification: the input 2, 1, 0, 0 (one per line)
gives root render, child render, "Toggle" invoked once, child render, root render, and
the call returns. -/
theorem C6_submenu_selected_witness :
    demoHeap 0 = some demoRoot ∧ AllSpace [] ∧ NoDigitAhead "\n1\n0\n0\n".toList ∧
    (1 ≤ 2 ∧ 2 ≤ demoRoot.items.length) ∧ demoRoot.items.length ≤ 2147483647 ∧
    demoRoot.items[2 - 1]? = some (MenuItem.mkSubmenu "Config" 1 "") ∧
    [] ++ numeral ((2 : Nat) : Int) ++ "\n1\n0\n0\n".toList = "2\n1\n0\n0\n".toList ∧
    display demoHeap 0 "2\n1\n0\n0\n".toList =
      { trace := [Event.out (render demoRoot), Event.enter 1, Event.out (render demoChild),
                  Event.call toggleFn, Event.out (render demoChild), Event.leave 1,
                  Event.out (render demoRoot)],
        rest := ['\n'], status := Status.returned, sels := [2, 0] } ∧
    (display demoHeap 0 ([] ++ numeral ((2 : Nat) : Int) ++ "\n1\n0\n0\n".toList) =
        nestedOutcome demoHeap 0 1 demoRoot ((2 : Nat) : Int) "\n1\n0\n0\n".toList ∧
      ((display demoHeap 1 "\n1\n0\n0\n".toList).status = Status.returned →
        (display demoHeap 1 "\n1\n0\n0\n".toList).sels.getLast? = some 0) ∧
      ∃ tail, (display demoHeap 0
          (display demoHeap 1 "\n1\n0\n0\n".toList).rest).trace =
        Event.out (render demoRoot) :: tail) :=
  ⟨rfl, by decide, by decide, by decide, by decide, by decide, by decide, by decide,
    C6_submenu_selected demoHeap 0 demoRoot [] "\n1\n0\n0\n".toList 2
      (MenuItem.mkSubmenu "Config" 1 "") 1 rfl (by decide) (by decide) (by decide)
      (by decide) (by decide) rfl rfl⟩

end MenuMaker
